import Mathlib

/-!
Verification of the colima command-chain executor (`cli` package), the
kubernetes runtime guards, mount-flag parsing, and the gvproxy daemon's
socket wrapper and resolver search-domain discovery.

Shallow embedding conventions:
* Go `error` values are modelled by `GoError`; `nil` errors are `none` in
  `Option GoError`.
* Go closures `func() error` are modelled as pure functions
  `Unit → Option GoError`; "invoking" an operation is applying it, and the
  executor additionally records a ghost trace of the operations it invoked
  and the stage labels it logged, so that claims about which operations run
  can be stated.
-/

/-- A single apostrophe character (U+0027), used in error-message formats. -/
def apos : String := String.mk [Char.ofNat 39]

/-- Go error values: either a leaf error or an error wrapping a cause
(`fmt.Errorf` with `%w`). -/
inductive GoError where
  | base (msg : String)
  | wrapped (msg : String) (cause : GoError)
deriving DecidableEq, Repr

/-- The message of an error (Go `err.Error()`; for wrapped errors the
formatted message already embeds the cause's message). -/
def GoError.message : GoError → String
  | .base m => m
  | .wrapped m _ => m

/-- Go `errors.Is`: an error "is" a target if it equals it or its wrapping
chain reaches it. -/
def GoError.Is : GoError → GoError → Bool
  | .base m, t => GoError.base m == t
  | .wrapped m c, t => (GoError.wrapped m c == t) || GoError.Is c t

/-- The message produced by `fmt.Errorf("error at '%s': %w", stage, err)`. -/
def stageErrMsg (stage msg : String) : String :=
  "error at " ++ apos ++ stage ++ apos ++ ": " ++ msg

/-- Wrap an error with the last stage's label, as `Exec` does on failure:
if no stage has been entered (`lastStage == ""`) the raw error is returned,
otherwise a wrapping error with the stage-tagged message. -/
def tagError (lastStage : String) (e : GoError) : GoError :=
  if lastStage = "" then e else .wrapped (stageErrMsg lastStage e.message) e

/-- A fallible Go operation `func() error`. -/
abbrev GoFun := Unit → Option GoError

/-- Source `cli.cFunc`: a chain step holding either an operation `f` (Go: non-nil
function pointer, modelled by `some`) or a stage label `s` (Go: `f == nil`). -/
structure cFunc where
  f : Option GoFun
  s : String

/-- An operation step, as appended by `Add` (the `s` field keeps its Go zero
value `""`). -/
def opStep (f : GoFun) : cFunc := { f := some f, s := "" }

/-- A stage-marker step, as appended by `Stage`. -/
def stageStep (s : String) : cFunc := { f := none, s := s }

/-- Source `cli.ActiveCommandChain`: ordered steps, the last entered stage label and
the logger (modelled by its `context` field, the chain's name). -/
structure ActiveCommandChain where
  funcs : List cFunc
  lastStage : String
  log : String

/-- Source `cli.namedCommandChain`. -/
structure namedCommandChain where
  name : String

/-- Source `cli.New`. -/
def New (name : String) : namedCommandChain := { name := name }

/-- Source `namedCommandChain.Logger`: a logger with `context` set to the name. -/
def namedCommandChain.Logger (n : namedCommandChain) : String := n.name

/-- Source `namedCommandChain.Init`: a fresh active chain bound to the logger.
`funcs` and `lastStage` take their Go zero values. -/
def namedCommandChain.Init (n : namedCommandChain) : ActiveCommandChain :=
  { funcs := [], lastStage := "", log := n.Logger }

namespace ActiveCommandChain

/-- Source `ActiveCommandChain.Add`: append an operation step. -/
def Add (a : ActiveCommandChain) (f : GoFun) : ActiveCommandChain :=
  { a with funcs := a.funcs ++ [opStep f] }

/-- Source `ActiveCommandChain.Stage`: append a stage-marker step. -/
def Stage (a : ActiveCommandChain) (s : String) : ActiveCommandChain :=
  { a with funcs := a.funcs ++ [stageStep s] }

/-- Source `ActiveCommandChain.Stagef`: `fmt.Sprintf(format, args...)` then `Stage`.
The formatting itself is out of scope; the already-formatted string is the
argument. -/
def Stagef (a : ActiveCommandChain) (formatted : String) : ActiveCommandChain :=
  a.Stage formatted

/-- The observable outcome of `Exec`: the returned error plus ghost
instrumentation recording, in order, the operations invoked and the stage
labels logged. -/
structure ExecOut where
  invoked : List GoFun
  logged : List String
  result : Option GoError

/-- The loop body of `ActiveCommandChain.Exec`, parameterised by the current
value of the (local, value-receiver) `lastStage` variable. A step with
`f == nil` is a stage marker: a non-empty label is logged and becomes the
last stage, an empty one is skipped. An operation step is invoked; on `nil`
it continues, on error the chain stops and the error is returned, tagged
with the last stage when one has been entered. -/
def execAux : String → List cFunc → ExecOut
  | _, [] => { invoked := [], logged := [], result := none }
  | lastStage, c :: rest =>
    match c.f with
    | none =>
      if c.s = "" then execAux lastStage rest
      else
        let o := execAux c.s rest
        { invoked := o.invoked, logged := c.s :: o.logged, result := o.result }
    | some f =>
      match f () with
      | none =>
        let o := execAux lastStage rest
        { invoked := f :: o.invoked, logged := o.logged, result := o.result }
      | some err =>
        { invoked := [f], logged := [], result := some (tagError lastStage err) }

/-- Source `ActiveCommandChain.Exec` (value receiver, so it starts from the chain's
stored `lastStage`, which is `""` for any chain produced by `Init`). -/
def Exec (a : ActiveCommandChain) : ExecOut := execAux a.lastStage a.funcs

end ActiveCommandChain

/-- The operations contained in a step list, in order. -/
def opsOf (l : List cFunc) : List GoFun := l.filterMap (fun c => c.f)

/-- The value of the `lastStage` variable after scanning `l` starting
from `lastStage`. -/
def stageAfter (lastStage : String) : List cFunc → String
  | [] => lastStage
  | c :: rest =>
    match c.f with
    | some _ => stageAfter lastStage rest
    | none => stageAfter (if c.s = "" then lastStage else c.s) rest

/-- The stage labels `Exec` logs while scanning `l` (non-empty labels of
stage steps, in order). -/
def stagesLogged : List cFunc → List String
  | [] => []
  | c :: rest =>
    match c.f with
    | some _ => stagesLogged rest
    | none => if c.s = "" then stagesLogged rest else c.s :: stagesLogged rest

/-- Holds (`true`) when the step is a stage marker or its operation succeeds. -/
def opOk (c : cFunc) : Bool :=
  match c.f with
  | none => true
  | some g => g () == none

/-- Every operation step in `l` succeeds (stage markers are vacuously ok). -/
def opsSucceed (l : List cFunc) : Prop := ∀ c ∈ l, opOk c = true

instance : DecidablePred opsSucceed := fun l =>
  inferInstanceAs (Decidable (∀ c ∈ l, opOk c = true))

theorem opsSucceed_cons {c : cFunc} {l : List cFunc} :
    opsSucceed (c :: l) ↔ opOk c = true ∧ opsSucceed l := by
  simp [opsSucceed]

theorem opOk_some {c : cFunc} {g : GoFun} (hc : c.f = some g) (h : opOk c = true) :
    g () = none := by
  unfold opOk at h
  rw [hc] at h
  exact eq_of_beq h

theorem opsOf_cons_none {c : cFunc} {l : List cFunc} (h : c.f = none) :
    opsOf (c :: l) = opsOf l := by
  simp [opsOf, List.filterMap_cons, h]

theorem opsOf_cons_some {c : cFunc} {l : List cFunc} {g : GoFun} (h : c.f = some g) :
    opsOf (c :: l) = g :: opsOf l := by
  simp [opsOf, List.filterMap_cons, h]

theorem stageAfter_cons_none {c : cFunc} {l : List cFunc} {ls : String} (h : c.f = none) :
    stageAfter ls (c :: l) = stageAfter (if c.s = "" then ls else c.s) l := by
  simp [stageAfter, h]

theorem stageAfter_cons_some {c : cFunc} {l : List cFunc} {ls : String} {g : GoFun}
    (h : c.f = some g) : stageAfter ls (c :: l) = stageAfter ls l := by
  simp [stageAfter, h]

theorem stagesLogged_cons_none {c : cFunc} {l : List cFunc} (h : c.f = none) :
    stagesLogged (c :: l) = if c.s = "" then stagesLogged l else c.s :: stagesLogged l := by
  simp [stagesLogged, h]

theorem stagesLogged_cons_some {c : cFunc} {l : List cFunc} {g : GoFun} (h : c.f = some g) :
    stagesLogged (c :: l) = stagesLogged l := by
  simp [stagesLogged, h]

/-- Scanning a block of steps whose operations all succeed invokes exactly its
operations, logs exactly its non-empty stage labels, and continues with the
updated last stage. -/
theorem execAux_append_ok (l rest : List cFunc) (ls : String) (h : opsSucceed l) :
    ActiveCommandChain.execAux ls (l ++ rest) =
      { invoked := opsOf l ++ (ActiveCommandChain.execAux (stageAfter ls l) rest).invoked,
        logged := stagesLogged l ++ (ActiveCommandChain.execAux (stageAfter ls l) rest).logged,
        result := (ActiveCommandChain.execAux (stageAfter ls l) rest).result } := by
  induction l generalizing ls with
  | nil => simp [opsOf, stageAfter, stagesLogged]
  | cons c cs ih =>
    obtain ⟨hc, hcs⟩ := opsSucceed_cons.mp h
    cases hf : c.f with
    | none =>
      by_cases hs : c.s = ""
      · rw [List.cons_append]
        rw [show ActiveCommandChain.execAux ls (c :: (cs ++ rest))
              = ActiveCommandChain.execAux ls (cs ++ rest) by
            simp [ActiveCommandChain.execAux, hf, hs]]
        rw [ih ls hcs, opsOf_cons_none hf, stageAfter_cons_none hf,
          stagesLogged_cons_none hf]
        simp [hs]
      · rw [List.cons_append]
        rw [show ActiveCommandChain.execAux ls (c :: (cs ++ rest))
              = { invoked := (ActiveCommandChain.execAux c.s (cs ++ rest)).invoked,
                  logged := c.s :: (ActiveCommandChain.execAux c.s (cs ++ rest)).logged,
                  result := (ActiveCommandChain.execAux c.s (cs ++ rest)).result } by
            simp [ActiveCommandChain.execAux, hf, hs]]
        rw [ih c.s hcs, opsOf_cons_none hf, stageAfter_cons_none hf,
          stagesLogged_cons_none hf]
        simp [hs]
    | some g =>
      have hg : g () = none := opOk_some hf hc
      rw [List.cons_append]
      rw [show ActiveCommandChain.execAux ls (c :: (cs ++ rest))
            = { invoked := g :: (ActiveCommandChain.execAux ls (cs ++ rest)).invoked,
                logged := (ActiveCommandChain.execAux ls (cs ++ rest)).logged,
                result := (ActiveCommandChain.execAux ls (cs ++ rest)).result } by
          simp [ActiveCommandChain.execAux, hf, hg]]
      rw [ih ls hcs, opsOf_cons_some hf, stageAfter_cons_some hf, stagesLogged_cons_some hf]
      simp

/-- Reaching a failing operation stops the scan and returns the stage-tagged
error. -/
theorem execAux_cons_fail {f : GoFun} {e : GoError} (ls : String) (rest : List cFunc)
    (hf : f () = some e) :
    ActiveCommandChain.execAux ls (opStep f :: rest) =
      { invoked := [f], logged := [], result := some (tagError ls e) } := by
  simp [ActiveCommandChain.execAux, opStep, hf]

theorem stageAfter_append (l l' : List cFunc) (ls : String) :
    stageAfter ls (l ++ l') = stageAfter (stageAfter ls l) l' := by
  induction l generalizing ls with
  | nil => simp [stageAfter]
  | cons c cs ih =>
    cases hf : c.f with
    | none => rw [List.cons_append, stageAfter_cons_none hf, stageAfter_cons_none hf, ih]
    | some g => rw [List.cons_append, stageAfter_cons_some hf, stageAfter_cons_some hf, ih]

/-- A block with no stage-marker steps leaves the last stage unchanged. -/
theorem stageAfter_no_stage {l : List cFunc} (h : ∀ c ∈ l, c.f ≠ none) (ls : String) :
    stageAfter ls l = ls := by
  induction l with
  | nil => rfl
  | cons c cs ih =>
    cases hf : c.f with
    | none => exact absurd hf (h c (List.mem_cons_self c cs))
    | some g =>
      rw [stageAfter_cons_some hf]
      exact ih fun c' hc' => h c' (List.mem_cons_of_mem c hc')

theorem tagError_ne_empty {s : String} (h : s ≠ "") (e : GoError) :
    tagError s e = .wrapped (stageErrMsg s e.message) e := by
  simp [tagError, h]

theorem GoError.Is_self (e : GoError) : e.Is e = true := by
  cases e <;> simp [GoError.Is]

theorem GoError.Is_tagError (ls : String) (e : GoError) :
    (tagError ls e).Is e = true := by
  unfold tagError
  by_cases h : ls = ""
  · simp [h, GoError.Is_self]
  · simp [h, GoError.Is, GoError.Is_self]

theorem opsSucceed_append {l l' : List cFunc} (h : opsSucceed l) (h' : opsSucceed l') :
    opsSucceed (l ++ l') := by
  intro c hc
  rcases List.mem_append.mp hc with hm | hm
  · exact h c hm
  · exact h' c hm

theorem opsSucceed_stageStep (s : String) : opOk (stageStep s) = true := rfl

/-- A non-empty stage marker is logged and becomes the last stage for the rest
of the scan. -/
theorem execAux_cons_stage {s : String} (hs : s ≠ "") (ls : String) (rest : List cFunc) :
    ActiveCommandChain.execAux ls (stageStep s :: rest) =
      { invoked := (ActiveCommandChain.execAux s rest).invoked,
        logged := s :: (ActiveCommandChain.execAux s rest).logged,
        result := (ActiveCommandChain.execAux s rest).result } := by
  simp [ActiveCommandChain.execAux, stageStep, hs]

/-- Core tagging fact shared by the stage-related claims: reaching a failing
operation after a non-empty stage marker, with no stage marker in between,
yields the stage-tagged wrapping error. -/
theorem exec_tagged_core (l1 l2 l3 : List cFunc) (X lg : String) (f : GoFun) (e : GoError)
    (hX : X ≠ "") (h1 : opsSucceed l1) (h2 : opsSucceed l2) (hns : ∀ c ∈ l2, c.f ≠ none)
    (hf : f () = some e) :
    (ActiveCommandChain.Exec
        ⟨l1 ++ stageStep X :: (l2 ++ opStep f :: l3), "", lg⟩).result
      = some (GoError.wrapped (stageErrMsg X e.message) e) := by
  have hsucc : opsSucceed (l1 ++ stageStep X :: l2) := by
    refine opsSucceed_append h1 ?_
    intro c hc
    rcases List.mem_cons.mp hc with hm | hm
    · rw [hm]; exact opsSucceed_stageStep X
    · exact h2 c hm
  have hshape : l1 ++ stageStep X :: (l2 ++ opStep f :: l3)
      = (l1 ++ stageStep X :: l2) ++ (opStep f :: l3) := by
    simp
  have hstage : stageAfter "" (l1 ++ stageStep X :: l2) = X := by
    rw [stageAfter_append]
    rw [@stageAfter_cons_none (stageStep X) l2 (stageAfter "" l1) rfl]
    simp only [stageStep]
    rw [if_neg hX]
    exact stageAfter_no_stage hns X
  show (ActiveCommandChain.execAux "" (l1 ++ stageStep X :: (l2 ++ opStep f :: l3))).result
      = some (GoError.wrapped (stageErrMsg X e.message) e)
  rw [hshape, execAux_append_ok _ _ _ hsucc, hstage, execAux_cons_fail X _ hf]
  simp [tagError_ne_empty hX]

/-- Core unwrapped-error fact: a failing operation reached with no stage
marker entered returns the raw error. -/
theorem exec_untagged_core (l1 l2 : List cFunc) (lg : String) (f : GoFun) (e : GoError)
    (hns : ∀ c ∈ l1, c.f ≠ none) (h1 : opsSucceed l1) (hf : f () = some e) :
    (ActiveCommandChain.Exec ⟨l1 ++ opStep f :: l2, "", lg⟩).result = some e := by
  show (ActiveCommandChain.execAux "" (l1 ++ opStep f :: l2)).result = some e
  rw [execAux_append_ok _ _ _ h1, stageAfter_no_stage hns, execAux_cons_fail _ _ hf]
  simp [tagError]

/-- Concrete operations used by the witnesses below. -/
def okOp : GoFun := fun _ => none

/-- The concrete error used by the witnesses below. -/
def boomErr : GoError := .base "boom"

/-- A concrete always-failing operation used by the witnesses below. -/
def boomOp : GoFun := fun _ => some boomErr

/-- C2: executing an Active Chain runs its operations in insertion order and
stops at the first failing one: the operations invoked are exactly those up
to and including the first failing operation, the returned error is the
stage-tagged version of (and wraps, in the `errors.Is` sense) that
operation's error, and a chain whose operations all succeed returns nil. -/
theorem exec_fail_fast :
    (∀ (l1 l2 : List cFunc) (lg : String) (f : GoFun) (e : GoError),
        opsSucceed l1 → f () = some e →
        (ActiveCommandChain.Exec ⟨l1 ++ opStep f :: l2, "", lg⟩).invoked
            = opsOf l1 ++ [f] ∧
        (ActiveCommandChain.Exec ⟨l1 ++ opStep f :: l2, "", lg⟩).result
            = some (tagError (stageAfter "" l1) e) ∧
        (tagError (stageAfter "" l1) e).Is e = true) ∧
    (∀ (l : List cFunc) (lg : String), opsSucceed l →
        (ActiveCommandChain.Exec ⟨l, "", lg⟩).result = none) := by
  constructor
  · intro l1 l2 lg f e h1 hf
    have h := execAux_append_ok l1 (opStep f :: l2) "" h1
    refine ⟨?_, ?_, GoError.Is_tagError _ e⟩
    · show (ActiveCommandChain.execAux "" (l1 ++ opStep f :: l2)).invoked = opsOf l1 ++ [f]
      rw [h, execAux_cons_fail _ _ hf]
    · show (ActiveCommandChain.execAux "" (l1 ++ opStep f :: l2)).result
          = some (tagError (stageAfter "" l1) e)
      rw [h, execAux_cons_fail _ _ hf]
  · intro l lg hl
    show (ActiveCommandChain.execAux "" l).result = none
    rw [← List.append_nil l, execAux_append_ok l [] "" hl]
    simp [ActiveCommandChain.execAux]

/-- Witness for C2 at a concrete chain: `[Stage "s", ok-op, failing op, ok-op]`
invokes the two operations up to the failure and returns the tagged error. -/
theorem exec_fail_fast_witness :
    ((ActiveCommandChain.Exec
        ⟨[stageStep "s", opStep okOp] ++ opStep boomOp :: [opStep okOp], "", "t"⟩).invoked
        = opsOf [stageStep "s", opStep okOp] ++ [boomOp] ∧
      (ActiveCommandChain.Exec
        ⟨[stageStep "s", opStep okOp] ++ opStep boomOp :: [opStep okOp], "", "t"⟩).result
        = some (tagError (stageAfter "" [stageStep "s", opStep okOp]) boomErr) ∧
      (tagError (stageAfter "" [stageStep "s", opStep okOp]) boomErr).Is boomErr = true) ∧
    (ActiveCommandChain.Exec ⟨[stageStep "s", opStep okOp], "", "t"⟩).result = none :=
  ⟨exec_fail_fast.1 [stageStep "s", opStep okOp] [opStep okOp] "t" boomOp boomErr
      (by decide) rfl,
    exec_fail_fast.2 [stageStep "s", opStep okOp] "t" (by decide)⟩

/-- C3: if the first failing operation is preceded by a `Stage("X")` step
(`X` a stage label, hence non-empty; `Stage("")` markers are ignored, see the
empty-label claim) with no intervening stage step, the returned error is a
wrapping error whose message is `error at 'X': <original>` and whose cause is
the original error; if no stage step precedes the failing operation, the raw
error is returned unwrapped and unmodified. -/
theorem exec_stage_tagging :
    (∀ (l1 l2 l3 : List cFunc) (X lg : String) (f : GoFun) (e : GoError),
        X ≠ "" → opsSucceed l1 → opsSucceed l2 → (∀ c ∈ l2, c.f ≠ none) →
        f () = some e →
        (ActiveCommandChain.Exec
            ⟨l1 ++ stageStep X :: (l2 ++ opStep f :: l3), "", lg⟩).result
          = some (GoError.wrapped (stageErrMsg X e.message) e)) ∧
    (∀ (l1 l2 : List cFunc) (lg : String) (f : GoFun) (e : GoError),
        (∀ c ∈ l1, c.f ≠ none) → opsSucceed l1 → f () = some e →
        (ActiveCommandChain.Exec ⟨l1 ++ opStep f :: l2, "", lg⟩).result = some e) :=
  ⟨exec_tagged_core, exec_untagged_core⟩

/-- Witness for C3: a concrete tagged failure and a concrete untagged one. -/
theorem exec_stage_tagging_witness :
    (ActiveCommandChain.Exec
        ⟨[opStep okOp] ++ stageStep "pull" :: ([opStep okOp] ++ opStep boomOp :: []),
          "", "t"⟩).result
      = some (GoError.wrapped (stageErrMsg "pull" boomErr.message) boomErr) ∧
    (ActiveCommandChain.Exec ⟨[opStep okOp] ++ opStep boomOp :: [], "", "t"⟩).result
      = some boomErr :=
  ⟨exec_stage_tagging.1 [opStep okOp] [opStep okOp] [] "pull" "t" boomOp boomErr
      (by decide) (by decide) (by decide)
      (by intro c hc; rw [List.mem_singleton] at hc; subst hc;
          exact fun h => Option.noConfusion h)
      rfl,
    exec_stage_tagging.2 [opStep okOp] [] "t" boomOp boomErr
      (by intro c hc; rw [List.mem_singleton] at hc; subst hc;
          exact fun h => Option.noConfusion h)
      (by decide) rfl⟩

/-- C4: `Add`, `Stage` and `Stagef` each append exactly one step to the step
list and change nothing else: the previously appended steps remain (as the
prefix of the new step list), and the `lastStage` reference and the logger
are untouched. No operation is applied by these calls — in this embedding an
operation is only ever applied inside `execAux`, i.e. during `Exec`. -/
theorem add_stage_stagef_frame :
    ∀ (a : ActiveCommandChain) (f : GoFun) (s fm : String),
      (a.Add f).funcs = a.funcs ++ [opStep f] ∧
      (a.Add f).funcs.length = a.funcs.length + 1 ∧
      (a.Add f).lastStage = a.lastStage ∧ (a.Add f).log = a.log ∧
      (a.Stage s).funcs = a.funcs ++ [stageStep s] ∧
      (a.Stage s).funcs.length = a.funcs.length + 1 ∧
      (a.Stage s).lastStage = a.lastStage ∧ (a.Stage s).log = a.log ∧
      (a.Stagef fm).funcs = a.funcs ++ [stageStep fm] ∧
      (a.Stagef fm).funcs.length = a.funcs.length + 1 ∧
      (a.Stagef fm).lastStage = a.lastStage ∧ (a.Stagef fm).log = a.log := by
  intro a f s fm
  refine ⟨rfl, ?_, rfl, rfl, rfl, ?_, rfl, rfl, rfl, ?_, rfl, rfl⟩ <;>
    simp [ActiveCommandChain.Add, ActiveCommandChain.Stage, ActiveCommandChain.Stagef]

/-- C7: on reaching a `Stage("X")` step with a non-empty label, `Exec` logs
the label and continues scanning the remaining steps with `X` as the last
stage — so the label takes effect before any subsequent operation runs, and
any later failing operation with no stage marker in between is tagged with
`X`. -/
theorem stage_effect_before_ops :
    ∀ (l1 l2 : List cFunc) (X lg : String), X ≠ "" → opsSucceed l1 →
      (ActiveCommandChain.Exec ⟨l1 ++ stageStep X :: l2, "", lg⟩ =
        { invoked := opsOf l1 ++ (ActiveCommandChain.execAux X l2).invoked,
          logged := stagesLogged l1 ++ X :: (ActiveCommandChain.execAux X l2).logged,
          result := (ActiveCommandChain.execAux X l2).result }) ∧
      (∀ (m1 m2 : List cFunc) (f : GoFun) (e : GoError),
        l2 = m1 ++ opStep f :: m2 → (∀ c ∈ m1, c.f ≠ none) → opsSucceed m1 →
        f () = some e →
        (ActiveCommandChain.Exec ⟨l1 ++ stageStep X :: l2, "", lg⟩).result
          = some (GoError.wrapped (stageErrMsg X e.message) e)) := by
  intro l1 l2 X lg hX h1
  constructor
  · show ActiveCommandChain.execAux "" (l1 ++ stageStep X :: l2) = _
    rw [execAux_append_ok l1 _ "" h1, execAux_cons_stage hX]
  · intro m1 m2 f e hl2 hns hm1 hf
    subst hl2
    exact exec_tagged_core l1 m1 m2 X lg f e hX h1 hm1 hns hf

/-- Witness for C7 at a concrete chain. -/
theorem stage_effect_before_ops_witness :
    (ActiveCommandChain.Exec ⟨[opStep okOp] ++ stageStep "up" :: [opStep boomOp], "", "t"⟩ =
      { invoked := opsOf [opStep okOp]
          ++ (ActiveCommandChain.execAux "up" [opStep boomOp]).invoked,
        logged := stagesLogged [opStep okOp]
          ++ "up" :: (ActiveCommandChain.execAux "up" [opStep boomOp]).logged,
        result := (ActiveCommandChain.execAux "up" [opStep boomOp]).result }) ∧
    (ActiveCommandChain.Exec ⟨[opStep okOp] ++ stageStep "up" :: [opStep boomOp],
        "", "t"⟩).result
      = some (GoError.wrapped (stageErrMsg "up" boomErr.message) boomErr) :=
  have h := stage_effect_before_ops [opStep okOp] [opStep boomOp] "up" "t"
    (by decide) (by decide)
  ⟨h.1, h.2 [] [] boomOp boomErr rfl (fun c hc => absurd hc (List.not_mem_nil c))
    (by decide) rfl⟩

/-- C8: a `Stage("")` step is appended to the chain like any other step, but
`Exec` ignores it completely: it is not logged and does not update the last
stage, so the scan of the remaining steps is exactly as if the step were
absent. -/
theorem stage_empty_ignored :
    (∀ (a : ActiveCommandChain),
        (a.Stage "").funcs = a.funcs ++ [stageStep ""] ∧
        (a.Stage "").funcs.length = a.funcs.length + 1) ∧
    (∀ (ls : String) (rest : List cFunc),
        ActiveCommandChain.execAux ls (stageStep "" :: rest)
          = ActiveCommandChain.execAux ls rest) := by
  constructor
  · intro a
    exact ⟨rfl, by simp [ActiveCommandChain.Stage]⟩
  · intro ls rest
    simp [ActiveCommandChain.execAux, stageStep]

/-!
`ActiveCommandChain.Retry`. The Go source is

```
var i int
for err = f(i + 1); i < count && err != nil; i, err = i+1, f(i+1) {
    ... log, sleep ...
}
return err
```

Go evaluates the right-hand sides of the post statement `i, err = i+1, f(i+1)`
with the pre-assignment value of `i`, so from state `(i, err)` the loop moves
to state `(i+1, f(i+1))`. The loop below carries `left = count - i` as a
structural recursion measure; `left > 0` is exactly the Go condition
`i < count`. The ghost first component records the attempt numbers passed to
`f`, in call order; the second component is the returned `err`.
-/

/-- State-transition part of the retry loop: from state `(i, err)` with
`left = count - i` iterations still allowed. -/
def retryLoop (f : Nat → Option GoError) : Nat → Nat → Option GoError →
    List Nat × Option GoError
  | 0, _, err => ([], err)
  | left + 1, i, err =>
    match err with
    | none => ([], none)
    | some _ =>
      let r := retryLoop f left (i + 1) (f (i + 1))
      ((i + 1) :: r.1, r.2)

/-- The whole retry operation: the initial assignment `err = f(i+1)` with
`i = 0` (so the first call receives attempt number 1), then the loop. -/
def retryGo (f : Nat → Option GoError) (count : Nat) : List Nat × Option GoError :=
  let r := retryLoop f count 0 (f 1)
  (1 :: r.1, r.2)

/-- Source `ActiveCommandChain.Retry`: appends (via `Add`) a single operation that
runs the retry loop. `interval` (the sleep between attempts) has no
observable effect in this pure embedding and is ignored; the label logging
before each retry is likewise not modelled. -/
def ActiveCommandChain.Retry (a : ActiveCommandChain) (stage : String)
    (interval count : Nat) (f : Nat → Option GoError) : ActiveCommandChain :=
  a.Add (fun _ => (retryGo f count).2)

/-- With an always-failing operation, the loop from state `(i, some e)` with
`left` iterations allowed calls `f` on `i+1, ..., i+left` and ends with the
last call's error. -/
theorem retryLoop_fail {f : Nat → Option GoError} (hf : ∀ k, f k ≠ none) :
    ∀ (left i : Nat) (e : GoError),
      retryLoop f left i (some e) =
        (List.range' (i + 1) left, if left = 0 then some e else f (i + left)) := by
  intro left
  induction left with
  | zero => intro i e; simp [retryLoop]
  | succ m ih =>
    intro i e
    obtain ⟨e', he'⟩ : ∃ e', f (i + 1) = some e' := by
      cases h : f (i + 1) with
      | none => exact absurd h (hf (i + 1))
      | some x => exact ⟨x, rfl⟩
    by_cases hm : m = 0
    · subst hm
      rfl
    · rw [show retryLoop f (m + 1) i (some e)
            = ((i + 1) :: (retryLoop f m (i + 1) (f (i + 1))).1,
               (retryLoop f m (i + 1) (f (i + 1))).2) from rfl]
      rw [he', ih (i + 1) e', if_neg hm, if_neg (Nat.succ_ne_zero m)]
      conv_rhs => rw [List.range'_succ]
      simp [Nat.add_assoc, Nat.add_comm, Nat.add_left_comm]

/-- If `f` (as a function of the attempt number) first succeeds at attempt
`K`, the loop from state `(i, f i)` with `1 ≤ i ≤ K` and enough iterations
allowed calls `f` on `i+1, ..., K` and ends with nil. -/
theorem retryLoop_succ {f : Nat → Option GoError} {K : Nat}
    (hsK : f K = none) (hb : ∀ j, 1 ≤ j → j < K → f j ≠ none) :
    ∀ (left i : Nat), 1 ≤ i → i ≤ K → K ≤ i + left →
      retryLoop f left i (f i) = (List.range' (i + 1) (K - i), none) := by
  intro left
  induction left with
  | zero =>
    intro i hi1 hiK hKi
    have hik : i = K := by omega
    subst hik
    simp [retryLoop, hsK]
  | succ m ih =>
    intro i hi1 hiK hKi
    by_cases hik : i = K
    · rw [hik, hsK, show retryLoop f (m + 1) K none = ([], none) from rfl]
      simp
    · have hlt : i < K := lt_of_le_of_ne hiK hik
      obtain ⟨e', he'⟩ : ∃ e', f i = some e' := by
        cases h : f i with
        | none => exact absurd h (hb i hi1 hlt)
        | some x => exact ⟨x, rfl⟩
      rw [he']
      rw [show retryLoop f (m + 1) i (some e')
            = ((i + 1) :: (retryLoop f m (i + 1) (f (i + 1))).1,
               (retryLoop f m (i + 1) (f (i + 1))).2) from rfl]
      rw [ih (i + 1) (by omega) (by omega) (by omega)]
      have hKi' : K - i = (K - (i + 1)) + 1 := by omega
      conv_rhs => rw [hKi', List.range'_succ]

/-- Executing the retry step with an always-failing operation, `count = N ≥ 1`:
the attempt numbers passed are `1, 1, 2, ..., N` and the result is the final
attempt's error. -/
theorem retryGo_fail {f : Nat → Option GoError} (hf : ∀ k, f k ≠ none) {N : Nat}
    (hN : 1 ≤ N) : retryGo f N = (1 :: List.range' 1 N, f N) := by
  obtain ⟨e, he⟩ : ∃ e, f 1 = some e := by
    cases h : f 1 with
    | none => exact absurd h (hf 1)
    | some x => exact ⟨x, rfl⟩
  unfold retryGo
  rw [he, retryLoop_fail hf N 0 e, if_neg (show ¬ N = 0 by omega)]
  simp

/-- Executing the retry step when `f` first succeeds at attempt `K ≤ N`:
one call when `K = 1`, otherwise calls numbered `1, 1, 2, ..., K`; result nil. -/
theorem retryGo_succ {f : Nat → Option GoError} {K N : Nat} (hK1 : 1 ≤ K)
    (hKN : K ≤ N) (hsK : f K = none) (hb : ∀ j, 1 ≤ j → j < K → f j ≠ none) :
    retryGo f N = ((if K = 1 then [1] else 1 :: List.range' 1 K), none) := by
  obtain ⟨m, rfl⟩ : ∃ m, N = m + 1 := ⟨N - 1, by omega⟩
  by_cases hK : K = 1
  · subst hK
    unfold retryGo
    rw [hsK, show retryLoop f (m + 1) 0 none = ([], none) from rfl]
    simp
  · obtain ⟨e, he⟩ : ∃ e, f 1 = some e := by
      cases h : f 1 with
      | none => exact absurd h (hb 1 le_rfl (by omega))
      | some x => exact ⟨x, rfl⟩
    unfold retryGo
    rw [he]
    rw [show retryLoop f (m + 1) 0 (some e)
          = ((0 + 1) :: (retryLoop f m (0 + 1) (f (0 + 1))).1,
             (retryLoop f m (0 + 1) (f (0 + 1))).2) from rfl]
    rw [show (0 : Nat) + 1 = 1 from rfl]
    rw [retryLoop_succ hsK hb m 1 le_rfl hK1 (by omega)]
    rw [if_neg hK]
    have hKsplit : K = (K - 1) + 1 := by omega
    conv_rhs => rw [hKsplit, List.range'_succ]

/-- C1 counterexample: for `N = 2` and an operation failing on every attempt,
the step appended by `Retry` invokes the operation three times, passing
attempt numbers `[1, 1, 2]` — not exactly `N = 2` times with numbers
`[1, 2]` as the claim states (Go evaluates the loop post statement
`i, err = i+1, f(i+1)` with the old `i`, so attempt number 1 is passed
twice). -/
theorem retry_claim_counterexample :
    (retryGo (fun _ => some boomErr) 2).1 = [1, 1, 2] ∧
    (retryGo (fun _ => some boomErr) 2).1 ≠ [1, 2] ∧
    (retryGo (fun _ => some boomErr) 2).1.length ≠ 2 :=
  ⟨by decide, by decide, by decide⟩

/-- C1 (amended): `Retry(label, interval, N, f)` appends exactly one
operation step whose execution runs the retry loop (`retryGo`). With `N ≥ 1`
and an operation failing on every attempt, the operation is invoked `N + 1`
times with attempt numbers `1, 1, 2, ..., N` (attempt number 1 is passed
twice, since Go evaluates the post statement `i, err = i+1, f(i+1)` with the
pre-assignment `i`) and the step returns the error of the final invocation,
the one passed attempt number `N`. If the operation, as a function of the
attempt number, first succeeds at attempt `K ≤ N`, it is invoked once when
`K = 1` and `K + 1` times (numbers `1, 1, 2, ..., K`) when `K ≥ 2`, and the
step returns nil. -/
theorem retry_semantics_amended :
    ∀ (a : ActiveCommandChain) (stage : String) (interval N : Nat)
      (f : Nat → Option GoError),
      1 ≤ N →
      (a.Retry stage interval N f).funcs
          = a.funcs ++ [opStep (fun _ => (retryGo f N).2)] ∧
      ((∀ k, f k ≠ none) →
        retryGo f N = (1 :: List.range' 1 N, f N) ∧
        (retryGo f N).1.length = N + 1) ∧
      (∀ K, 1 ≤ K → K ≤ N → f K = none → (∀ j, 1 ≤ j → j < K → f j ≠ none) →
        retryGo f N = ((if K = 1 then [1] else 1 :: List.range' 1 K), none) ∧
        (retryGo f N).1.length = if K = 1 then 1 else K + 1) := by
  intro a stage interval N f hN
  refine ⟨rfl, ?_, ?_⟩
  · intro hf
    refine ⟨retryGo_fail hf hN, ?_⟩
    rw [retryGo_fail hf hN]
    simp
  · intro K hK1 hKN hsK hb
    refine ⟨retryGo_succ hK1 hKN hsK hb, ?_⟩
    rw [retryGo_succ hK1 hKN hsK hb]
    by_cases hK : K = 1
    · simp [hK]
    · simp [hK]

/-- An operation failing only on attempt number 1 (first success at `K = 2`),
used by the C1 witness. -/
def failOnceOp : Nat → Option GoError := fun k => if k = 1 then some boomErr else none

/-!
The kubernetes runtime (`environment/container/kubernetes`). The guest is
abstracted as an oracle from the command argument list to the command's
outcome (`none` = success), covering `Run`/`RunQuiet`. The chain-building
code of `Provision` past the `Running()` guard (config resolution and the
`installK3s*` helpers, which live outside the provided sources) is abstracted
as an arbitrary function `rest` that appends steps to the fresh chain.
-/

/-- Guest command execution (`environment.GuestActions`, restricted to what
the claims need): the outcome of running a command, by argument list. -/
structure GuestActions where
  run : List String → Option GoError

/-- Source `kubernetesRuntime`: guest oracle, the embedded `cli.CommandChain`, and
the outcome of `provisionKubeconfig` (defined in `kubeconfig.go`), abstracted
as an oracle since it only matters whether `Start` reaches it. -/
structure kubernetesRuntime where
  guest : GuestActions
  chain : namedCommandChain
  provisionKubeconfigRes : Option GoError

/-- Source `kubernetesRuntime.Running`: the k3s service status probe succeeds. -/
def kubernetesRuntime.Running (c : kubernetesRuntime) : Bool :=
  (c.guest.run ["sudo", "service", "k3s", "status"]).isNone

/-- The observable outcome of `Provision`: the returned error, the ghost list
of chain operations invoked, and whether `Exec` was reached. -/
structure ProvisionOut where
  result : Option GoError
  invoked : List GoFun
  execCalled : Bool

/-- Source `kubernetesRuntime.Provision`: build a fresh chain, return nil at once if
the runtime is already running, otherwise append the provisioning steps
(abstracted as `rest`) and execute the chain. -/
def kubernetesRuntime.Provision (c : kubernetesRuntime)
    (rest : ActiveCommandChain → ActiveCommandChain) : ProvisionOut :=
  let a := c.chain.Init
  if c.Running then { result := none, invoked := [], execCalled := false }
  else
    let a := rest a
    let o := a.Exec
    { result := o.result, invoked := o.invoked, execCalled := true }

/-- The observable outcome of `Start`: the returned error, the ghost list of
chain operations invoked, and whether `provisionKubeconfig` was reached. -/
structure StartOut where
  result : Option GoError
  invoked : List GoFun
  kubeconfigProvisioned : Bool

/-- Source `kubernetesRuntime.Start`: return nil at once if already running;
otherwise stage "starting", add the k3s service start operation, retry
`kubectl cluster-info` up to 10 times at 2s, execute the chain, and on
success provision the kubeconfig. -/
def kubernetesRuntime.Start (c : kubernetesRuntime) : StartOut :=
  let a := c.chain.Init
  if c.Running then { result := none, invoked := [], kubeconfigProvisioned := false }
  else
    let a := a.Stage "starting"
    let a := a.Add (fun _ => c.guest.run ["sudo", "service", "k3s", "start"])
    let a := a.Retry "" 2 10 (fun _ => c.guest.run ["kubectl", "cluster-info"])
    let o := a.Exec
    match o.result with
    | some e => { result := some e, invoked := o.invoked, kubeconfigProvisioned := false }
    | none => { result := c.provisionKubeconfigRes, invoked := o.invoked,
                kubeconfigProvisioned := true }

/-- C9: whenever the liveness probe `Running()` reports true, `Provision` and
`Start` both return nil immediately: no chain operation is invoked, `Exec` is
never reached in `Provision`, and `Start` neither runs any chain operation
(in particular does not start the k3s service) nor provisions the
kubeconfig. -/
theorem running_short_circuits :
    ∀ (c : kubernetesRuntime) (rest : ActiveCommandChain → ActiveCommandChain),
      c.Running = true →
      c.Provision rest = { result := none, invoked := [], execCalled := false } ∧
      c.Start = { result := none, invoked := [], kubeconfigProvisioned := false } := by
  intro c rest h
  constructor
  · unfold kubernetesRuntime.Provision
    rw [h]
    rfl
  · unfold kubernetesRuntime.Start
    rw [h]
    rfl

/-- A concrete runtime whose guest accepts every command, so that `Running()`
is true; used by the C9 witness. -/
def liveRuntime : kubernetesRuntime :=
  { guest := { run := fun _ => none }, chain := New "kubernetes",
    provisionKubeconfigRes := some boomErr }

/-- Witness for C9 at a concrete running runtime. -/
theorem running_short_circuits_witness :
    liveRuntime.Running = true ∧
    liveRuntime.Provision id = { result := none, invoked := [], execCalled := false } ∧
    liveRuntime.Start = { result := none, invoked := [], kubeconfigProvisioned := false } :=
  ⟨rfl, running_short_circuits liveRuntime id rfl⟩

/-!
`mountsFromFlag` (`cmd/start.go`): converts mount strings from the CLI flag
format to the config file format via `strings.SplitN(mount, ":", 2)`.
-/

/-- Source `config.Mount` (the two fields `mountsFromFlag` populates). -/
structure Mount where
  Location : String
  Writable : Bool
deriving DecidableEq

/-- Source `strings.SplitN(s, ":", 2)` in essence: the characters before the first
colon, and — when a colon occurs — the characters after it. -/
def breakColon : List Char → List Char × Option (List Char)
  | [] => ([], none)
  | c :: cs =>
    if c = ':' then ([], some cs)
    else
      let r := breakColon cs
      (c :: r.1, r.2)

/-- Source `mountsFromFlag`: `str := strings.SplitN(mount, ":", 2)`, then
`Location = str[0]` and `Writable = len(str) >= 2 && str[1] == "w"`. -/
def mountsFromFlag (mounts : List String) : List Mount :=
  mounts.map fun mount =>
    match breakColon mount.data with
    | (loc, none) => { Location := String.mk loc, Writable := false }
    | (loc, some rest) => { Location := String.mk loc, Writable := rest = "w".data }

theorem String_mk_eq_iff {a : List Char} {s : String} : String.mk a = s ↔ a = s.data :=
  ⟨fun h => congrArg String.data h, fun h => by subst h; cases s; rfl⟩

theorem breakColon_eq (cs : List Char) :
    breakColon cs =
      (cs.takeWhile (fun c => !(c == ':')),
       if ':' ∈ cs then some ((cs.dropWhile (fun c => !(c == ':'))).drop 1) else none) := by
  induction cs with
  | nil => simp [breakColon]
  | cons c cs ih =>
    by_cases hc : c = ':'
    · subst hc
      simp [breakColon, List.takeWhile_cons, List.dropWhile_cons]
    · rw [show breakColon (c :: cs) = (c :: (breakColon cs).1, (breakColon cs).2) from by
        simp [breakColon, hc]]
      rw [ih]
      simp [List.takeWhile_cons, List.dropWhile_cons, hc, List.mem_cons,
        show ¬ (':' = c) from fun h => hc h.symm]

/-- C10: `mountsFromFlag` is length-preserving and, element-wise, `Location`
is the substring before the first `:` (the whole string when no `:` occurs)
and `Writable` is true exactly when the string contains a `:` and the
remainder after the first `:` is exactly `"w"` (so any other suffix, e.g.
`"rw"`, yields false). -/
theorem mountsFromFlag_spec :
    ∀ (mounts : List String),
      (mountsFromFlag mounts).length = mounts.length ∧
      ∀ (i : Nat) (hi : i < mounts.length) (hj : i < (mountsFromFlag mounts).length),
        ((mountsFromFlag mounts).get ⟨i, hj⟩).Location
            = String.mk ((mounts.get ⟨i, hi⟩).data.takeWhile (fun c => !(c == ':'))) ∧
        (((mountsFromFlag mounts).get ⟨i, hj⟩).Writable = true ↔
          ':' ∈ (mounts.get ⟨i, hi⟩).data ∧
          String.mk (((mounts.get ⟨i, hi⟩).data.dropWhile (fun c => !(c == ':'))).drop 1)
            = String.mk "w".data) := by
  intro mounts
  refine ⟨by simp [mountsFromFlag], ?_⟩
  intro i hi hj
  simp only [List.get_eq_getElem]
  have hget : (mountsFromFlag mounts)[i]
      = (match breakColon mounts[i].data with
         | (loc, none) => { Location := String.mk loc, Writable := false }
         | (loc, some rest) => { Location := String.mk loc, Writable := rest = "w".data }) := by
    simp [mountsFromFlag]
  rw [hget, breakColon_eq]
  by_cases hmem : ':' ∈ mounts[i].data
  · rw [if_pos hmem]
    refine ⟨rfl, ?_⟩
    simp [String_mk_eq_iff, hmem]
  · rw [if_neg hmem]
    refine ⟨rfl, ?_⟩
    simp [hmem]

/-!
The gvproxy daemon package (the second document of
`src/embedded/defaults/colima.yaml`): the `Socket` wrapper and the resolver
search-domain discovery.
-/

/-- The characters of the `unix://` URI scheme prefix. -/
def unixPfxChars : List Char := "unix://".data

/-- Source `type Socket string` (gvproxy): a socket path as a string. -/
abbrev Socket := String

/-- Source `Socket.File` (gvproxy):
`strings.TrimPrefix(string(s), "unix://")`. Go `TrimPrefix` returns the
string with one leading occurrence of the prefix removed when it is present,
and the string unchanged otherwise. -/
def Socket.File (s : Socket) : String :=
  if unixPfxChars.isPrefixOf s.data then String.mk (s.data.drop 7) else s

/-- Source `Socket.Unix` (gvproxy): `"unix://" + s.File()`. -/
def Socket.Unix (s : Socket) : String := "unix://" ++ Socket.File s

theorem isPrefixOf_append_self (l r : List Char) : l.isPrefixOf (l ++ r) = true := by
  induction l with
  | nil => cases r <;> rfl
  | cons c cs ih => simp [List.isPrefixOf, ih]

/-- C5 counterexample: the claim's equations fail at the path
`P = "unix://a"`: `File()` is `strings.TrimPrefix(string(s), "unix://")`,
so `Socket(P).File()` strips the prefix and returns `"a"`, not `P`, and
`Socket(P).Unix()` is `"unix://a"`, not `"unix://" + P`. (The claim's first
two equations are jointly inconsistent with its round-trip equation: no
`File` can satisfy all three for every `P`.) -/
theorem socket_claim_counterexample :
    ¬ (Socket.File "unix://a" = "unix://a" ∧
        Socket.Unix "unix://a" = "unix://" ++ "unix://a") := by
  decide

/-- C5 (amended): for every path `P` that does not itself start with
`unix://`, `Socket(P).File() == P` and `Socket(P).Unix() == "unix://" + P`;
and for every `P` (unconditionally) the round trip
`Socket("unix://" + P).File() == P` holds. The conversions are pure string
transforms. -/
theorem socket_views_amended :
    ∀ (P : String),
      (unixPfxChars.isPrefixOf P.data = false →
        Socket.File P = P ∧ Socket.Unix P = "unix://" ++ P) ∧
      Socket.File ("unix://" ++ P) = P := by
  intro P
  constructor
  · intro h
    have hf : Socket.File P = P := by simp [Socket.File, h]
    refine ⟨hf, ?_⟩
    show "unix://" ++ Socket.File P = "unix://" ++ P
    rw [hf]
  · unfold Socket.File
    rw [show ("unix://" ++ P).data = unixPfxChars ++ P.data from String.data_append _ _]
    simp only [isPrefixOf_append_self, if_true]
    rw [show (7 : Nat) = unixPfxChars.length from rfl, List.drop_left]

/-- Witness for the amended C5 at the concrete path `/tmp/colima.sock`. -/
theorem socket_views_amended_witness :
    (Socket.File "/tmp/colima.sock" = "/tmp/colima.sock" ∧
      Socket.Unix "/tmp/colima.sock" = "unix://" ++ "/tmp/colima.sock") ∧
    Socket.File ("unix://" ++ "/tmp/colima.sock") = "/tmp/colima.sock" :=
  have h := socket_views_amended "/tmp/colima.sock"
  ⟨h.1 (by decide), h.2⟩

/-- Source `strings.HasPrefix(sc.Text(), searchPrefix)` with
`searchPrefix = "search "` (gvproxy `searchDomains`). -/
def isSearchLine (l : String) : Bool := "search ".data.isPrefixOf l.data

/-- Source `strings.TrimPrefix(sc.Text(), searchPrefix)` (gvproxy
`searchDomains`): only applied to lines that carry the prefix, so it drops
its 7 characters. -/
def searchRemainder (l : String) : String := String.mk (l.data.drop 7)

/-- Split a character list into whitespace-separated words (`acc` holds the
current word, reversed). -/
def wsWordsAux : List Char → List Char → List String
  | [], acc => if acc.isEmpty then [] else [String.mk acc.reverse]
  | c :: cs, acc =>
    if c.isWhitespace then
      if acc.isEmpty then wsWordsAux cs []
      else String.mk acc.reverse :: wsWordsAux cs []
    else wsWordsAux cs (c :: acc)

/-- Source `strings.Fields` (gvproxy `searchDomains`): split around maximal
runs of whitespace characters, yielding no empty words. -/
def splitWS (s : String) : List String := wsWordsAux s.data []

/-- Source `searchDomains()` (gvproxy, second document of
`src/embedded/defaults/colima.yaml`). The I/O boundary is the input:
`none` models the platform gate failing (`runtime.GOOS` neither darwin nor
linux), an unreadable `/etc/resolv.conf`, or a scanner error — every path on
which the Go function returns nil before or without matching; `some lines`
models the file content as the scanner's lines. Scan for the first line
beginning with `search `; if found, return its remainder split into fields;
otherwise return the empty list — errors are logged, never returned. -/
def searchDomains : Option (List String) → List String
  | none => []
  | some lines =>
    match lines.find? isSearchLine with
    | some l => splitWS (searchRemainder l)
    | none => []

theorem find?_first {p : String → Bool} :
    ∀ (pre : List String) (x : String) (post : List String),
      (∀ l ∈ pre, p l = false) → p x = true →
      List.find? p (pre ++ x :: post) = some x := by
  intro pre
  induction pre with
  | nil =>
    intro x post _ hx
    simp [List.find?_cons, hx]
  | cons a as ih =>
    intro x post h hx
    have ha : p a = false := h a (List.mem_cons_self a as)
    rw [List.cons_append, List.find?_cons, ha]
    exact ih x post (fun l hl => h l (List.mem_cons_of_mem a hl)) hx

/-- C6: if the first `search ` line of the resolver configuration is
`search foo.local bar.local`, parsing returns `["foo.local", "bar.local"]`;
if no line begins with the `search ` directive, or the file cannot be read,
the result is the empty list — never an error. -/
theorem searchDomains_spec :
    (∀ (pre post : List String),
        (∀ l ∈ pre, isSearchLine l = false) →
        searchDomains (some (pre ++ "search foo.local bar.local" :: post))
          = ["foo.local", "bar.local"]) ∧
    (∀ (lines : List String), (∀ l ∈ lines, isSearchLine l = false) →
        searchDomains (some lines) = []) ∧
    searchDomains none = [] := by
  refine ⟨?_, ?_, rfl⟩
  · intro pre post hpre
    simp only [searchDomains]
    rw [find?_first pre "search foo.local bar.local" post hpre (by decide)]
    decide
  · intro lines hl
    have hnone : List.find? isSearchLine lines = none :=
      List.find?_eq_none.mpr (fun x hx => by simp [hl x hx])
    simp only [searchDomains]
    rw [hnone]

/-- Witness for C6 on a concrete resolver configuration. -/
theorem searchDomains_spec_witness :
    searchDomains
        (some (["nameserver 1.1.1.1"]
          ++ "search foo.local bar.local" :: ["options attempts 3"]))
      = ["foo.local", "bar.local"] ∧
    searchDomains (some ["nameserver 1.1.1.1"]) = [] ∧
    searchDomains none = [] :=
  ⟨searchDomains_spec.1 ["nameserver 1.1.1.1"] ["options attempts 3"] (by decide),
    searchDomains_spec.2.1 ["nameserver 1.1.1.1"] (by decide),
    searchDomains_spec.2.2⟩

/-- Witness for C10 on concrete mount strings covering all three cases. -/
theorem mountsFromFlag_spec_witness :
    (mountsFromFlag ["/a/b:w", "/c", "/d:rw"]).length = (["/a/b:w", "/c", "/d:rw"]).length ∧
    ((mountsFromFlag ["/a/b:w", "/c", "/d:rw"]).get ⟨0, by decide⟩).Location
        = String.mk ((["/a/b:w", "/c", "/d:rw"].get ⟨0, by decide⟩).data.takeWhile
            (fun c => !(c == ':'))) ∧
    (((mountsFromFlag ["/a/b:w", "/c", "/d:rw"]).get ⟨0, by decide⟩).Writable = true ↔
      ':' ∈ (["/a/b:w", "/c", "/d:rw"].get ⟨0, by decide⟩).data ∧
      String.mk (((["/a/b:w", "/c", "/d:rw"].get ⟨0, by decide⟩).data.dropWhile
          (fun c => !(c == ':'))).drop 1) = String.mk "w".data) :=
  have h := mountsFromFlag_spec ["/a/b:w", "/c", "/d:rw"]
  ⟨h.1, h.2 0 (by decide) (by decide)⟩

/-- Witness for the amended C1 at `N = 2` (always failing) and at `N = 3`
with first success at attempt `K = 2`. -/
theorem retry_semantics_amended_witness :
    (((New "t").Init.Retry "r" 1 2 (fun _ => some boomErr)).funcs
        = (New "t").Init.funcs
          ++ [opStep (fun _ => (retryGo (fun _ => some boomErr) 2).2)] ∧
      retryGo (fun _ => some boomErr) 2
        = (1 :: List.range' 1 2, (fun _ => some boomErr) 2) ∧
      (retryGo (fun _ => some boomErr) 2).1.length = 2 + 1) ∧
    (retryGo failOnceOp 3 = ((if 2 = 1 then [1] else 1 :: List.range' 1 2), none) ∧
      (retryGo failOnceOp 3).1.length = if 2 = 1 then 1 else 2 + 1) :=
  have h2 := retry_semantics_amended (New "t").Init "r" 1 2 (fun _ => some boomErr)
    (by decide)
  have h3 := retry_semantics_amended (New "t").Init "r" 1 3 failOnceOp (by decide)
  ⟨⟨h2.1, h2.2.1 (fun _ hc => Option.noConfusion hc)⟩,
    h3.2.2 2 (by decide) (by decide) (by decide)
      (fun j h1 hlt => by
        have hj : j = 1 := by omega
        subst hj
        exact fun hc => by simp [failOnceOp] at hc)⟩
